import Mathlib

/-!
Verification development for the retrieval-augmented interview core of the
ai-maker-space repository.

Strings from the TypeScript sources are embedded as `List Char` where their
character-level structure matters (trimming, splitting, concatenation), and as
Lean `String` where they are opaque payloads.  The frontend sources
(frontend/src/App.tsx, frontend/src/auth.ts) are embedded directly; the
backend interview core (session state machine, vector index, chunker) is not
part of the available sources, so those components are modelled from the
specification, as marked on each definition.
-/

/-! ### JavaScript string primitives (embedding of String.prototype methods) -/

/-- Embeds the JavaScript whitespace test used by String.prototype.trim for
the ASCII whitespace characters. -/
def jsIsWhitespace (c : Char) : Bool :=
  c == ' ' || c == '\t' || c == '\n' || c == '\r' || c == '\x0b' || c == '\x0c'

/-- Embeds JavaScript String.prototype.trim: remove leading and trailing
whitespace. -/
def jsTrim (s : List Char) : List Char :=
  ((s.dropWhile jsIsWhitespace).reverse.dropWhile jsIsWhitespace).reverse

/-- Embeds JavaScript String.prototype.split with a single-character
separator: "a:b".split(":") is ["a","b"], ":".split(":") is ["",""],
"".split(":") is [""]. -/
def jsSplit (sep : Char) : List Char → List (List Char)
  | [] => [[]]
  | c :: rest =>
    match jsSplit sep rest with
    | [] => [[]]
    | h :: t => if c == sep then [] :: h :: t else (c :: h) :: t

/-- Embeds JavaScript String.prototype.startsWith for the one-character
comment marker used in auth.ts. -/
def jsStartsWithHash : List Char → Bool
  | [] => false
  | c :: _ => c == '#'

/-! ### frontend/src/auth.ts -/

/-- A parsed user record; embeds the User interface of auth.ts. -/
structure AuthUser where
  username : List Char
  password : List Char
deriving DecidableEq, Repr

/-- Embeds the per-line step of AuthService.parseUsersFile (auth.ts lines
31-46): trim the line, skip empty lines and lines starting with the comment
marker, split the trimmed line on the colon, trim the first two fields and
keep them only when both are non-empty (JavaScript truthiness of strings). -/
def parseLine (line : List Char) : Option AuthUser :=
  if jsTrim line = [] then none
  else if jsStartsWithHash (jsTrim line) then none
  else
    match ((jsSplit ':' (jsTrim line)).map jsTrim).get? 0,
          ((jsSplit ':' (jsTrim line)).map jsTrim).get? 1 with
    | some u, some p => if u ≠ [] ∧ p ≠ [] then some ⟨u, p⟩ else none
    | _, _ => none

/-- Embeds AuthService.parseUsersFile (auth.ts lines 31-46): the content is
trimmed, split into lines, and each line contributes at most one user. -/
def parseUsersFile (content : List Char) : List AuthUser :=
  (jsSplit '\n' (jsTrim content)).filterMap parseLine

/-- Embeds the resolved boolean of AuthService.login (auth.ts lines 48-63):
true exactly when some parsed user matches both credential fields. -/
def login (content : List Char) (username password : List Char) : Bool :=
  ((parseUsersFile content).find?
    (fun u => u.username == username && u.password == password)).isSome

/-- The characterization of login claimed by the specification sentence, read
literally on each line as split from the file: the line is non-empty, does
not start with the comment marker, and its first two colon-separated fields
trim to the credential fields.  Stated for comparison with the code's
behaviour. -/
def loginClaimedSpec (content : List Char) (username password : List Char) : Prop :=
  ∃ line ∈ jsSplit '\n' (jsTrim content),
    line ≠ [] ∧ ¬ jsStartsWithHash line = true ∧
    ((jsSplit ':' line).map jsTrim).get? 0 = some username ∧
    ((jsSplit ':' line).map jsTrim).get? 1 = some password

instance (content username password : List Char) :
    Decidable (loginClaimedSpec content username password) := by
  unfold loginClaimedSpec
  exact List.decidableBEx _ _

/-- The corrected characterization of login: the comment and emptiness checks
apply to the trimmed line, and both trimmed fields must additionally be
non-empty (JavaScript truthiness). -/
def loginAmendedSpec (content : List Char) (username password : List Char) : Prop :=
  ∃ line ∈ jsSplit '\n' (jsTrim content),
    jsTrim line ≠ [] ∧ ¬ jsStartsWithHash (jsTrim line) = true ∧
    ((jsSplit ':' (jsTrim line)).map jsTrim).get? 0 = some username ∧
    ((jsSplit ':' (jsTrim line)).map jsTrim).get? 1 = some password ∧
    username ≠ [] ∧ password ≠ []

/-! ### Browser localStorage and AuthService.logout (auth.ts lines 65-76) -/

/-- The browser localStorage key-value store, modelled as an association
list. -/
def BrowserStore := List (String × String)

/-- Embeds localStorage.getItem. -/
def getItem (s : BrowserStore) (k : String) : Option String :=
  ((s : List (String × String)).find? (fun p => p.1 == k)).map (fun p => p.2)

/-- Embeds localStorage.removeItem. -/
def removeItem (s : BrowserStore) (k : String) : BrowserStore :=
  (s : List (String × String)).filter (fun p => ¬ p.1 == k)

/-- Embeds AuthService.logout (auth.ts lines 65-68): removes both stored
keys. -/
def logout (s : BrowserStore) : BrowserStore :=
  removeItem (removeItem s "isLoggedIn") "currentUser"

/-- Embeds AuthService.isLoggedIn (auth.ts lines 70-72). -/
def isLoggedIn (s : BrowserStore) : Bool :=
  getItem s "isLoggedIn" == some "true"

/-- Embeds AuthService.getCurrentUser (auth.ts lines 74-76). -/
def getCurrentUser (s : BrowserStore) : Option String :=
  getItem s "currentUser"

/-! ### Session identifier generation (App.tsx startInterview, line 1622) -/

/-- Decimal digit to character, embedding JavaScript number-to-string
conversion digit by digit. -/
def digitChar (d : ℕ) : Char := Char.ofNat (48 + d)

/-- The decimal representation of a natural number as a character list,
embedding the JavaScript conversion performed by a template literal on the
integer value of Date.now(). -/
def natToDecimalChars (n : ℕ) : List Char :=
  if n = 0 then ['0'] else ((Nat.digits 10 n).reverse.map digitChar)

/-- Embeds App.tsx line 1622: the session identifier built by startInterview
from the current millisecond timestamp. -/
def makeSessionId (now : ℕ) : List Char :=
  "interview_".toList ++ natToDecimalChars now

/-- The identifiers produced by a sequence of startInterview invocations
whose observed Date.now() readings are the given list. -/
def sessionIdTrace (nows : List ℕ) : List (List Char) :=
  nows.map makeSessionId

/-! ### Chunker (modelled from the spec) -/

/-- Modelled from the spec: the Chunker of section 4.1 is not among the
available sources.  chunk(text, max_length, overlap) splits the text into
chunks of at most maxLen characters, each chunk after the first repeating the
trailing overlap characters of its predecessor; text shorter than maxLen
yields one chunk, empty text yields none.  Degenerate parameters
(maxLen ≤ overlap) fall back to a single chunk so the function is total; the
verified property only concerns overlap < maxLen. -/
def chunkText (maxLen overlap : ℕ) (text : List Char) : List (List Char) :=
  if text = [] then []
  else if _h : text.length ≤ maxLen ∨ maxLen ≤ overlap then [text]
  else text.take maxLen :: chunkText maxLen overlap (text.drop (maxLen - overlap))
termination_by text.length
decreasing_by
  simp only [List.length_drop]
  omega

/-- Reassembles chunk texts in sequence order, removing the declared overlap
repeated at the start of each chunk after the first. -/
def reassemble (overlap : ℕ) : List (List Char) → List Char
  | [] => []
  | c :: cs => c ++ (cs.map (List.drop overlap)).flatten

/-! ### Vector Index (modelled from the spec) -/

/-- Modelled from the spec: the Vector Index of section 4.2 is not among the
available sources.  One indexed chunk: identifier and embedding vector.
Entries are kept in insertion order. -/
structure IndexEntry where
  chunkId : String
  embedding : List ℚ
deriving DecidableEq, Repr

/-- The index error taxonomy of spec section 7 relevant to the Vector
Index. -/
inductive IndexError
  | duplicateKey
  | invalidVector
deriving DecidableEq, Repr

/-- Modelled from the spec: add(chunk_id, embedding) appends; inserting an
already-present chunk_id fails with DuplicateKeyError and leaves the index
mapping unchanged (the returned store is the state after the call). -/
def addChunk (entries : List IndexEntry) (cid : String) (emb : List ℚ) :
    Except IndexError Unit × List IndexEntry :=
  if entries.any (fun e => e.chunkId == cid) then (.error .duplicateKey, entries)
  else (.ok (), entries ++ [⟨cid, emb⟩])

/-- A degenerate (all-zero) embedding, rejected by query per spec
section 4.2. -/
def isZeroVector (v : List ℚ) : Bool :=
  v.all (fun x => x == 0)

/-- Scores every entry against the query with the given similarity function,
keeping each entry's insertion position.  The similarity function is a
parameter of the model: the spec prescribes cosine similarity, whose exact
value is irrational in general, and the verified ordering property holds for
every score function. -/
def scoreEntries (sim : List ℚ → List ℚ → ℚ) (q : List ℚ)
    (entries : List IndexEntry) : List (ℕ × String × ℚ) :=
  entries.enum.map (fun p => (p.1, p.2.chunkId, sim q p.2.embedding))

/-- The ranking order of spec section 4.2: strictly greater score first, and
on exactly equal scores the earlier-inserted entry first. -/
def rankRel (a b : ℕ × String × ℚ) : Prop :=
  b.2.2 < a.2.2 ∨ (a.2.2 = b.2.2 ∧ a.1 ≤ b.1)

instance : DecidableRel rankRel := by
  intro a b
  unfold rankRel
  infer_instance

instance : IsTotal (ℕ × String × ℚ) rankRel := by
  constructor
  intro a b
  rcases lt_trichotomy a.2.2 b.2.2 with h | h | h
  · exact Or.inr (Or.inl h)
  · rcases Nat.le_total a.1 b.1 with h1 | h1
    · exact Or.inl (Or.inr ⟨h, h1⟩)
    · exact Or.inr (Or.inr ⟨h.symm, h1⟩)
  · exact Or.inl (Or.inl h)

instance : IsTrans (ℕ × String × ℚ) rankRel := by
  constructor
  intro a b c hab hbc
  rcases hab with hab | ⟨hab, hab1⟩
  · rcases hbc with hbc | ⟨hbc, _⟩
    · exact Or.inl (lt_trans hbc hab)
    · exact Or.inl (hbc ▸ hab)
  · rcases hbc with hbc | ⟨hbc, hbc1⟩
    · exact Or.inl (hab ▸ hbc)
    · exact Or.inr ⟨hab.trans hbc, le_trans hab1 hbc1⟩

/-- Modelled from the spec: query(query_embedding, k) rejects a degenerate
query vector with InvalidVectorError, otherwise scores every indexed vector
and returns the top k ranked by descending score, ties broken by insertion
order.  Each returned result carries its entry's insertion position alongside
the (chunk_id, score) pair exposed to callers. -/
def queryIndex (sim : List ℚ → List ℚ → ℚ) (q : List ℚ) (k : ℕ)
    (entries : List IndexEntry) : Except IndexError (List (ℕ × String × ℚ)) :=
  if isZeroVector q then .error .invalidVector
  else .ok ((List.insertionSort rankRel (scoreEntries sim q entries)).take k)

/-! ### Session State Machine (modelled from the spec, sections 4.4-4.5) -/

/-- The session lifecycle states of spec section 4.4. -/
inductive SessionState
  | created
  | awaitingAnswer
  | complete
deriving DecidableEq, Repr

/-- The artifact kinds of spec sections 3 and 6. -/
inductive ArtifactKind
  | sequenceDiagram
  | architectureDiagram
  | schemaDiagram
  | apiDesign
  | deploymentDiagram
  | designDocument
deriving DecidableEq, Repr

/-- All recognized artifact kinds, in the order listed by the spec. -/
def allKinds : List ArtifactKind :=
  [.sequenceDiagram, .architectureDiagram, .schemaDiagram,
   .apiDesign, .deploymentDiagram, .designDocument]

/-- The output-preferences configuration set: one independent switch per
artifact kind (spec section 6). -/
structure OutputPrefs where
  sequenceDiagram : Bool
  architectureDiagram : Bool
  schemaDiagram : Bool
  apiDesign : Bool
  deploymentDiagram : Bool
  designDocument : Bool
deriving DecidableEq, Repr

/-- Whether a kind is enabled by the preferences. -/
def OutputPrefs.enabled (p : OutputPrefs) : ArtifactKind → Bool
  | .sequenceDiagram => p.sequenceDiagram
  | .architectureDiagram => p.architectureDiagram
  | .schemaDiagram => p.schemaDiagram
  | .apiDesign => p.apiDesign
  | .deploymentDiagram => p.deploymentDiagram
  | .designDocument => p.designDocument

/-- The preference set enabling only the design document. -/
def designDocOnly : OutputPrefs :=
  ⟨false, false, false, false, false, true⟩

/-- A produced artifact (spec section 3). -/
structure Artifact where
  kind : ArtifactKind
  content : String
deriving DecidableEq, Repr

/-- One interview turn: a question and, once submitted, its answer. -/
structure Turn where
  question : String
  answer : Option String
deriving DecidableEq, Repr

/-- Modelled from the spec: the InterviewSession record of spec section 3,
owned by the Session Registry and mutated only by state-machine
transitions. -/
structure InterviewSession where
  sessionId : List Char
  requirementsText : String
  outputPrefs : OutputPrefs
  turns : List Turn
  turnIndex : ℕ
  state : SessionState
  artifacts : List Artifact
deriving DecidableEq, Repr

/-- The error taxonomy of spec section 7 relevant to session transitions. -/
inductive InterviewError
  | invalidRequest
  | notFound
  | invalidState
  | embedding
  | generation
deriving DecidableEq, Repr

/-- The fixed interview length (spec section 4.4). -/
def TOTAL_TURNS : ℕ := 5

/-- Records the submitted answer into turns[turnIndex].answer (spec
section 4.4). -/
def recordAnswer (turns : List Turn) (i : ℕ) (a : String) : List Turn :=
  turns.enum.map (fun p => if p.1 = i then { p.2 with answer := some a } else p.2)

/-- The kinds enabled by the preferences, in the fixed kind order. -/
def enabledKinds (prefs : OutputPrefs) : List ArtifactKind :=
  allKinds.filter (fun k => prefs.enabled k)

/-- Runs the per-kind Generator calls for the given kinds, stopping at the
first collaborator failure. -/
def synthGo (artResults : ArtifactKind → Except String String) :
    List ArtifactKind → Except String (List Artifact)
  | [] => .ok []
  | k :: ks =>
    match artResults k, synthGo artResults ks with
    | .ok c, .ok rest => .ok (⟨k, c⟩ :: rest)
    | .error e, _ => .error e
    | _, .error e => .error e

/-- Modelled from the spec: artifact synthesis at completion builds one
artifact per enabled kind from a kind-specific Generator call (spec
section 4.4). -/
def synthesizeArtifacts (prefs : OutputPrefs)
    (artResults : ArtifactKind → Except String String) :
    Except String (List Artifact) :=
  synthGo artResults (enabledKinds prefs)

/-- The response of start_interview (spec section 6). -/
structure StartResponse where
  question : String
  progress : ℕ
deriving DecidableEq, Repr

/-- The response of submit_answer (spec section 6). -/
structure SubmitResponse where
  question : Option String
  progress : ℕ
  isComplete : Bool
  artifacts : Option (List Artifact)
deriving DecidableEq, Repr

/-- Modelled from the spec: the start transition of spec section 4.4.
Collaborator calls (the Embedder behind context retrieval and the Generator
producing the first question) enter as their outcomes.  Validates the
requirements, creates the session in AWAITING_ANSWER with turn_index 0, and
returns the first question with progress 0. -/
def startInterview (sid : List Char) (req : String) (prefs : OutputPrefs)
    (embedResult : Except String (List String))
    (genResult : Except String String) :
    Except InterviewError (InterviewSession × StartResponse) :=
  if req = "" then .error .invalidRequest
  else
    match embedResult with
    | .error _ => .error .embedding
    | .ok _ =>
      match genResult with
      | .error _ => .error .generation
      | .ok q =>
        .ok ({ sessionId := sid, requirementsText := req, outputPrefs := prefs,
               turns := [⟨q, none⟩], turnIndex := 0,
               state := .awaitingAnswer, artifacts := [] },
             ⟨q, 0⟩)

/-- Modelled from the spec: the submit_answer transition of spec section 4.4,
returning the response together with the session state after the call.  A
COMPLETE session always fails with InvalidStateError and is untouched; a
collaborator failure surfaces as a typed error with the session left exactly
as it was (the transition is atomic); otherwise the answer is recorded and
either the next question is produced (progress turn_index*100/TOTAL_TURNS)
or the session completes and artifacts are synthesized (progress 100). -/
def submitAnswer (s : InterviewSession) (answer : String)
    (embedResult : Except String (List String))
    (genResult : Except String String)
    (artResults : ArtifactKind → Except String String) :
    Except InterviewError SubmitResponse × InterviewSession :=
  if s.state = .complete then (.error .invalidState, s)
  else
    match embedResult with
    | .error _ => (.error .embedding, s)
    | .ok _ =>
      if s.turnIndex + 1 < TOTAL_TURNS then
        match genResult with
        | .error _ => (.error .generation, s)
        | .ok q =>
          (.ok ⟨some q, (s.turnIndex + 1) * 100 / TOTAL_TURNS, false, none⟩,
           { s with turns := recordAnswer s.turns s.turnIndex answer ++ [⟨q, none⟩],
                    turnIndex := s.turnIndex + 1 })
      else
        match synthesizeArtifacts s.outputPrefs artResults with
        | .error _ => (.error .generation, s)
        | .ok arts =>
          (.ok ⟨none, 100, true, some arts⟩,
           { s with turns := recordAnswer s.turns s.turnIndex answer,
                    state := .complete, artifacts := arts })

/-- Reading the session's artifacts (spec section 4.4, idempotence). -/
def readArtifacts (s : InterviewSession) : List Artifact :=
  s.artifacts

/-- Runs a list of submit_answer steps (answer, generated next question) with
fixed successful retrieval and artifact generation, collecting the
(progress, is_complete) pairs of the responses. -/
def runSubmits (ctx : List String) (arts : ArtifactKind → Except String String)
    (s : InterviewSession) :
    List (String × String) → Except InterviewError (List (ℕ × Bool))
  | [] => .ok []
  | (a, q) :: rest =>
    match submitAnswer s a (.ok ctx) (.ok q) arts with
    | (.ok r, s') =>
      match runSubmits ctx arts s' rest with
      | .ok l => .ok ((r.progress, r.isComplete) :: l)
      | .error e => .error e
    | (.error e, _) => .error e

/-- A full interview run: start, then the given submit steps; the result is
the start progress together with the (progress, is_complete) pair of every
submit response. -/
def runInterview (sid : List Char) (req : String) (prefs : OutputPrefs)
    (ctx : List String) (q0 : String) (steps : List (String × String))
    (arts : ArtifactKind → Except String String) :
    Except InterviewError (ℕ × List (ℕ × Bool)) :=
  match startInterview sid req prefs (.ok ctx) (.ok q0) with
  | .error e => .error e
  | .ok (s0, r0) =>
    match runSubmits ctx arts s0 steps with
    | .ok l => .ok (r0.progress, l)
    | .error e => .error e

/-- One submit_answer call with its collaborator outcomes. -/
structure SubmitCall where
  answer : String
  embedResult : Except String (List String)
  genResult : Except String String
  artResults : ArtifactKind → Except String String

/-- Applies a sequence of submit_answer calls to a session, collecting every
response and the final session state. -/
def runCalls (s : InterviewSession) :
    List SubmitCall → List (Except InterviewError SubmitResponse) × InterviewSession
  | [] => ([], s)
  | c :: rest =>
    ((submitAnswer s c.answer c.embedResult c.genResult c.artResults).1 ::
       (runCalls (submitAnswer s c.answer c.embedResult c.genResult c.artResults).2 rest).1,
     (runCalls (submitAnswer s c.answer c.embedResult c.genResult c.artResults).2 rest).2)

/-- A completed session used to instantiate the completion theorems. -/
def sampleCompleteSession : InterviewSession :=
  { sessionId := "interview_0".toList, requirementsText := "r",
    outputPrefs := designDocOnly,
    turns := [⟨"q", some "a"⟩], turnIndex := 4, state := .complete,
    artifacts := [⟨.designDocument, "doc"⟩] }

/-- A session awaiting its final answer, used to instantiate the completion
theorems. -/
def sampleFinalSession : InterviewSession :=
  { sessionId := "interview_0".toList, requirementsText := "r",
    outputPrefs := designDocOnly,
    turns := [⟨"q", none⟩], turnIndex := 4, state := .awaitingAnswer,
    artifacts := [] }

/-! ### Helper lemmas -/

theorem find?_key_filter_ne (l : List (String × String)) (k : String) :
    (l.filter (fun p => ¬ p.1 == k)).find? (fun p => p.1 == k) = none := by
  rw [List.find?_eq_none]
  intro x hx
  simp only [List.mem_filter] at hx
  simpa using hx.2

theorem getItem_logout_isLoggedIn (s : BrowserStore) :
    getItem (logout s) "isLoggedIn" = none := by
  unfold getItem logout removeItem
  have h : List.find? (fun p => p.1 == "isLoggedIn")
      (List.filter (fun p => ¬ p.1 == "currentUser")
        (List.filter (fun p => ¬ p.1 == "isLoggedIn") s)) = none := by
    rw [List.find?_eq_none]
    intro x hx
    simp only [List.mem_filter] at hx
    have hx1 := hx.1
    simp only [List.mem_filter] at hx1
    simpa using hx1.2
  rw [h]
  rfl

theorem getItem_logout_currentUser (s : BrowserStore) :
    getItem (logout s) "currentUser" = none := by
  unfold getItem logout removeItem
  rw [find?_key_filter_ne]
  rfl

/-! ### C10 -/

/-- C10: after AuthService.logout runs, isLoggedIn returns false and
getCurrentUser returns null, for every prior localStorage state. -/
theorem logout_clears_login_state (s : BrowserStore) :
    isLoggedIn (logout s) = false ∧ getCurrentUser (logout s) = none := by
  constructor
  · unfold isLoggedIn
    rw [getItem_logout_isLoggedIn]
    rfl
  · unfold getCurrentUser
    exact getItem_logout_currentUser s

/-! ### C6 -/

/-- C6: adding a chunk_id already present in the index fails with
DuplicateKeyError, and the index mapping after the failed call is exactly the
mapping before it. -/
theorem addChunk_duplicate_unchanged (entries : List IndexEntry) (cid : String)
    (emb : List ℚ) (h : entries.any (fun e => e.chunkId == cid) = true) :
    addChunk entries cid emb = (.error .duplicateKey, entries) := by
  simp [addChunk, h]

/-- Concrete instantiation of addChunk_duplicate_unchanged. -/
theorem addChunk_duplicate_unchanged_witness :
    ([⟨"c1", [1]⟩] : List IndexEntry).any (fun e => e.chunkId == "c1") = true ∧
    addChunk [⟨"c1", [1]⟩] "c1" [2] = (.error .duplicateKey, [⟨"c1", [1]⟩]) :=
  ⟨by decide, addChunk_duplicate_unchanged [⟨"c1", [1]⟩] "c1" [2] (by decide)⟩

/-! ### C3 helpers: decimal representation is injective -/

theorem digitChar_injOn (d1 d2 : ℕ) (h1 : d1 < 10) (h2 : d2 < 10)
    (h : digitChar d1 = digitChar d2) : d1 = d2 := by
  interval_cases d1 <;> interval_cases d2 <;> revert h <;> decide

theorem map_digitChar_inj (l1 l2 : List ℕ) (h1 : ∀ x ∈ l1, x < 10)
    (h2 : ∀ x ∈ l2, x < 10) (h : l1.map digitChar = l2.map digitChar) :
    l1 = l2 := by
  induction l1 generalizing l2 with
  | nil => cases l2 <;> simp_all
  | cons a t ih =>
    cases l2 with
    | nil => simp_all
    | cons b t2 =>
      simp only [List.map_cons, List.cons.injEq] at h
      have hab := digitChar_injOn a b (h1 a (by simp)) (h2 b (by simp)) h.1
      subst hab
      have ht := ih t2 (fun x hx => h1 x (by simp [hx]))
        (fun x hx => h2 x (by simp [hx])) h.2
      simp [ht]

theorem digits_reverse_map_ne_zero_digit (n : ℕ) (hn : n ≠ 0)
    (h : (['0'] : List Char) = ((Nat.digits 10 n).reverse.map digitChar)) :
    False := by
  have hmap : (List.map digitChar [0] : List Char) = ['0'] := by decide
  have h0 := hmap.trans h
  have hrev := map_digitChar_inj [0] (Nat.digits 10 n).reverse (by decide)
    (fun x hx => Nat.digits_lt_base (by norm_num) (List.mem_reverse.mp hx)) h0
  have hd : Nat.digits 10 n = [0] := by
    have := congrArg List.reverse hrev
    simpa using this.symm
  have hofd := Nat.ofDigits_digits 10 n
  rw [hd] at hofd
  simp [Nat.ofDigits] at hofd
  exact hn hofd.symm

theorem natToDecimalChars_inj (m n : ℕ)
    (h : natToDecimalChars m = natToDecimalChars n) : m = n := by
  unfold natToDecimalChars at h
  by_cases hm : m = 0 <;> by_cases hn : n = 0
  · omega
  · rw [if_pos hm, if_neg hn] at h
    exact absurd h (by intro hc; exact digits_reverse_map_ne_zero_digit n hn hc)
  · rw [if_neg hm, if_pos hn] at h
    exact absurd h.symm (by intro hc; exact digits_reverse_map_ne_zero_digit m hm hc)
  · rw [if_neg hm, if_neg hn] at h
    have hrev := map_digitChar_inj (Nat.digits 10 m).reverse (Nat.digits 10 n).reverse
      (fun x hx => Nat.digits_lt_base (by norm_num) (List.mem_reverse.mp hx))
      (fun x hx => Nat.digits_lt_base (by norm_num) (List.mem_reverse.mp hx)) h
    have hdig : Nat.digits 10 m = Nat.digits 10 n := List.reverse_injective hrev
    have hofd := congrArg (Nat.ofDigits 10) hdig
    rw [Nat.ofDigits_digits, Nat.ofDigits_digits] at hofd
    exact_mod_cast hofd

/-! ### C3 -/

/-- C3 counterexample: the claim that any two distinct startInterview
invocations yield distinct session identifiers is false — two invocations
observing the same Date.now() millisecond reading produce the same
identifier. -/
theorem sessionId_collision_counterexample :
    ¬ ∀ nows : List ℕ, (sessionIdTrace nows).Pairwise (fun a b => a ≠ b) := by
  intro h
  have h2 := h [1700000000000, 1700000000000]
  simp [sessionIdTrace] at h2

/-- C3 amended: two startInterview invocations produce distinct session
identifiers whenever their observed Date.now() readings differ (the
identifier is the string interview_ followed by the decimal timestamp, which
is injective in the timestamp); invocations within the same millisecond
collide. -/
theorem sessionId_distinct_of_distinct_times (t1 t2 : ℕ) (h : t1 ≠ t2) :
    makeSessionId t1 ≠ makeSessionId t2 := by
  intro he
  unfold makeSessionId at he
  exact h (natToDecimalChars_inj t1 t2 (List.append_cancel_left he))

/-- Concrete instantiation of sessionId_distinct_of_distinct_times. -/
theorem sessionId_distinct_witness :
    (1 : ℕ) ≠ 2 ∧ makeSessionId 1 ≠ makeSessionId 2 :=
  ⟨by decide, sessionId_distinct_of_distinct_times 1 2 (by decide)⟩

/-! ### C7 helpers -/

theorem chunk_reassemble_aux (n : ℕ) :
    ∀ (maxLen overlap : ℕ), overlap < maxLen → ∀ text : List Char,
      text.length ≤ n → reassemble overlap (chunkText maxLen overlap text) = text := by
  induction n with
  | zero =>
    intro maxLen overlap _h text hlen
    have htext : text = [] := List.length_eq_zero.mp (Nat.le_zero.mp hlen)
    subst htext
    simp [chunkText, reassemble]
  | succ n ih =>
    intro maxLen overlap h text hlen
    rw [chunkText]
    by_cases h0 : text = []
    · subst h0
      simp [reassemble]
    rw [if_neg h0]
    by_cases h1 : text.length ≤ maxLen ∨ maxLen ≤ overlap
    · rw [dif_pos h1]
      simp [reassemble]
    rw [dif_neg h1]
    push_neg at h1
    have hml : maxLen < text.length := h1.1
    have hrlen : overlap < (text.drop (maxLen - overlap)).length := by
      simp only [List.length_drop]
      omega
    have hrest_ne : text.drop (maxLen - overlap) ≠ [] := by
      intro hc
      rw [hc] at hrlen
      simp at hrlen
    have hrest_le : (text.drop (maxLen - overlap)).length ≤ n := by
      simp only [List.length_drop]
      omega
    have ihrest := ih maxLen overlap h (text.drop (maxLen - overlap)) hrest_le
    obtain ⟨c0, cs, hchunk, hc0len⟩ :
        ∃ c0 cs, chunkText maxLen overlap (text.drop (maxLen - overlap)) = c0 :: cs ∧
          overlap ≤ c0.length := by
      rw [chunkText, if_neg hrest_ne]
      by_cases h2 : (text.drop (maxLen - overlap)).length ≤ maxLen ∨ maxLen ≤ overlap
      · rw [dif_pos h2]
        exact ⟨_, [], rfl, le_of_lt hrlen⟩
      · rw [dif_neg h2]
        push_neg at h2
        refine ⟨_, _, rfl, ?_⟩
        simp only [List.length_take, List.length_drop]
        omega
    rw [hchunk] at ihrest
    simp only [reassemble] at ihrest
    rw [hchunk]
    simp only [reassemble, List.map_cons, List.flatten_cons]
    have hjoin : List.drop overlap c0 ++ (cs.map (List.drop overlap)).flatten
        = List.drop overlap (text.drop (maxLen - overlap)) := by
      rw [← ihrest, List.drop_append_of_le_length hc0len]
    rw [← List.append_assoc, List.append_assoc, hjoin, List.drop_drop]
    have hsum : maxLen - overlap + overlap = maxLen := by omega
    rw [hsum]
    exact List.take_append_drop maxLen text

/-! ### C7 -/

/-- C7: for overlap < max_length, concatenating the chunk texts in sequence
order after removing the declared overlap repeated at the start of each chunk
after the first reconstructs the original text exactly. -/
theorem chunk_reassemble_exact (maxLen overlap : ℕ) (text : List Char)
    (h : overlap < maxLen) :
    reassemble overlap (chunkText maxLen overlap text) = text :=
  chunk_reassemble_aux text.length maxLen overlap h text le_rfl

/-- Concrete instantiation of chunk_reassemble_exact. -/
theorem chunk_reassemble_witness :
    (1 : ℕ) < 3 ∧ reassemble 1 (chunkText 3 1 "abcde".toList) = "abcde".toList :=
  ⟨by decide, chunk_reassemble_exact 3 1 "abcde".toList (by decide)⟩

/-! ### C9 helpers -/

theorem parseLine_eq_some_iff (line : List Char) (u p : List Char) :
    parseLine line = some ⟨u, p⟩ ↔
      (jsTrim line ≠ [] ∧ ¬ jsStartsWithHash (jsTrim line) = true ∧
       ((jsSplit ':' (jsTrim line)).map jsTrim).get? 0 = some u ∧
       ((jsSplit ':' (jsTrim line)).map jsTrim).get? 1 = some p ∧
       u ≠ [] ∧ p ≠ []) := by
  unfold parseLine
  constructor
  · intro hsome
    by_cases h1 : jsTrim line = []
    · rw [if_pos h1] at hsome
      exact absurd hsome (by simp)
    rw [if_neg h1] at hsome
    by_cases h2 : jsStartsWithHash (jsTrim line) = true
    · rw [if_pos h2] at hsome
      exact absurd hsome (by simp)
    rw [if_neg h2] at hsome
    rcases hget0 : ((jsSplit ':' (jsTrim line)).map jsTrim).get? 0 with _ | u0
    · rw [hget0] at hsome
      exact absurd hsome (by simp)
    rcases hget1 : ((jsSplit ':' (jsTrim line)).map jsTrim).get? 1 with _ | p0
    · rw [hget0, hget1] at hsome
      exact absurd hsome (by simp)
    rw [hget0, hget1] at hsome
    simp only [] at hsome
    by_cases h3 : u0 ≠ [] ∧ p0 ≠ []
    · rw [if_pos h3, Option.some.injEq, AuthUser.mk.injEq] at hsome
      obtain ⟨rfl, rfl⟩ := hsome
      exact ⟨h1, h2, rfl, rfl, h3.1, h3.2⟩
    · rw [if_neg h3] at hsome
      exact absurd hsome (by simp)
  · rintro ⟨h1, h2, hu, hp, hune, hpne⟩
    rw [if_neg h1, if_neg h2, hu, hp]
    simp [hune, hpne]

/-! ### C9 -/

/-- C9 counterexample: the claimed characterization of login fails on the
users-file content "a:" with username "a" and empty password — the claimed
condition holds (the second colon-separated field trims to the empty
password) yet login resolves to false, because the code additionally
requires both trimmed fields to be non-empty (JavaScript truthiness). -/
theorem login_claimed_spec_counterexample :
    ¬ (login "a:".toList "a".toList "".toList = true ↔
       loginClaimedSpec "a:".toList "a".toList "".toList) := by
  decide

/-- C9 amended: login resolves to true exactly when some line of USERS_DATA,
after trimming, is non-empty, does not start with the comment marker, and
has first and second colon-separated fields trimming to exactly the username
and the password respectively, with both trimmed fields non-empty; in
particular a stored password containing a colon can never be matched in
full. -/
theorem login_iff_amendedSpec (content username password : List Char) :
    login content username password = true ↔
      loginAmendedSpec content username password := by
  unfold login loginAmendedSpec parseUsersFile
  rw [List.find?_isSome]
  constructor
  · rintro ⟨usr, husr, hpred⟩
    simp only [Bool.and_eq_true, beq_iff_eq] at hpred
    obtain ⟨line, hline, hpl⟩ := List.mem_filterMap.mp husr
    have husr_eq : usr = ⟨username, password⟩ := by
      cases usr
      simp_all
    rw [husr_eq] at hpl
    exact ⟨line, hline, (parseLine_eq_some_iff line username password).mp hpl⟩
  · rintro ⟨line, hline, hc⟩
    refine ⟨⟨username, password⟩, ?_, ?_⟩
    · exact List.mem_filterMap.mpr
        ⟨line, hline, (parseLine_eq_some_iff line username password).mpr hc⟩
    · simp

/-! ### C5 -/

/-- C5: for a non-degenerate query vector and non-empty index, query results
are totally ordered by non-increasing similarity score, and on exactly equal
scores the earlier-inserted chunk appears before the later-inserted one. -/
theorem queryIndex_sorted (sim : List ℚ → List ℚ → ℚ) (q : List ℚ) (k : ℕ)
    (entries : List IndexEntry) (hq : isZeroVector q = false) (_hne : entries ≠ [])
    (out : List (ℕ × String × ℚ)) (hout : queryIndex sim q k entries = .ok out) :
    out.Pairwise (fun a b => b.2.2 ≤ a.2.2 ∧ (a.2.2 = b.2.2 → a.1 < b.1)) := by
  unfold queryIndex at hout
  rw [hq] at hout
  simp only [Bool.false_eq_true, if_false, Except.ok.injEq] at hout
  subst hout
  have hsorted : (List.insertionSort rankRel (scoreEntries sim q entries)).Pairwise rankRel :=
    List.sorted_insertionSort rankRel (scoreEntries sim q entries)
  have hperm := List.perm_insertionSort rankRel (scoreEntries sim q entries)
  have hnodup_fst : (List.map Prod.fst (scoreEntries sim q entries)).Nodup := by
    unfold scoreEntries
    rw [List.map_map]
    have hfst : (Prod.fst ∘ fun p : ℕ × IndexEntry =>
        (p.1, p.2.chunkId, sim q p.2.embedding)) = Prod.fst := rfl
    rw [hfst, List.enum_map_fst]
    exact List.nodup_range _
  have hnodup_sorted :
      (List.map Prod.fst (List.insertionSort rankRel (scoreEntries sim q entries))).Nodup :=
    ((hperm.map Prod.fst).symm).nodup hnodup_fst
  have hpw_ne : (List.insertionSort rankRel (scoreEntries sim q entries)).Pairwise
      (fun a b => a.1 ≠ b.1) := by
    unfold List.Nodup at hnodup_sorted
    rw [List.pairwise_map] at hnodup_sorted
    exact hnodup_sorted
  have hcomb := hsorted.and hpw_ne
  have hfinal : (List.insertionSort rankRel (scoreEntries sim q entries)).Pairwise
      (fun a b => b.2.2 ≤ a.2.2 ∧ (a.2.2 = b.2.2 → a.1 < b.1)) := by
    refine hcomb.imp ?_
    rintro a b ⟨hr | ⟨heq, hle⟩, hne1⟩
    · refine ⟨le_of_lt hr, fun he => ?_⟩
      exact absurd hr (by rw [he]; exact lt_irrefl _)
    · exact ⟨le_of_eq heq.symm, fun _ => lt_of_le_of_ne hle hne1⟩
  exact hfinal.sublist (List.take_sublist k _)

/-- Concrete instantiation of queryIndex_sorted. -/
theorem queryIndex_sorted_witness :
    isZeroVector [(1:ℚ)] = false ∧
    List.Pairwise (fun a b => b.2.2 ≤ a.2.2 ∧ (a.2.2 = b.2.2 → a.1 < b.1))
      [((0:ℕ), "a", (0:ℚ)), (1, "b", 0)] :=
  ⟨by decide, queryIndex_sorted (fun _ _ => 0) [1] 2 [⟨"a", [1]⟩, ⟨"b", [2]⟩]
    (by decide) (by decide) _ rfl⟩

/-! ### Session state machine helper lemmas -/

theorem submitAnswer_of_complete (s : InterviewSession) (a : String)
    (embedResult : Except String (List String)) (genResult : Except String String)
    (artResults : ArtifactKind → Except String String) (h : s.state = .complete) :
    submitAnswer s a embedResult genResult artResults = (.error .invalidState, s) := by
  unfold submitAnswer
  rw [if_pos h]

theorem synthGo_ok (artResults : ArtifactKind → Except String String)
    (g : ArtifactKind → String) (h : ∀ k, artResults k = .ok (g k)) :
    ∀ ks : List ArtifactKind, synthGo artResults ks = .ok (ks.map (fun k => ⟨k, g k⟩)) := by
  intro ks
  induction ks with
  | nil => rfl
  | cons k t ih => simp [synthGo, h k, ih]

theorem submitAnswer_advance (s : InterviewSession) (a : String) (ctx : List String)
    (q : String) (artResults : ArtifactKind → Except String String)
    (h1 : s.state = .awaitingAnswer) (h2 : s.turnIndex + 1 < TOTAL_TURNS) :
    submitAnswer s a (.ok ctx) (.ok q) artResults =
      (.ok ⟨some q, (s.turnIndex + 1) * 100 / TOTAL_TURNS, false, none⟩,
       { s with turns := recordAnswer s.turns s.turnIndex a ++ [⟨q, none⟩],
                turnIndex := s.turnIndex + 1 }) := by
  simp [submitAnswer, h1, h2]

theorem submitAnswer_finish (s : InterviewSession) (a : String) (ctx : List String)
    (genResult : Except String String)
    (artResults : ArtifactKind → Except String String) (l : List Artifact)
    (h1 : s.state = .awaitingAnswer) (h2 : ¬ s.turnIndex + 1 < TOTAL_TURNS)
    (h3 : synthesizeArtifacts s.outputPrefs artResults = .ok l) :
    submitAnswer s a (.ok ctx) genResult artResults =
      (.ok ⟨none, 100, true, some l⟩,
       { s with turns := recordAnswer s.turns s.turnIndex a,
                state := .complete, artifacts := l }) := by
  simp [submitAnswer, h1, h2, h3]

/-! ### C2 -/

/-- C2: on a COMPLETE session every subsequent submit_answer call fails with
InvalidStateError, artifact synthesis is never re-run (the session, its
artifacts included, is left untouched by every such call), and repeated
reads of the session's artifacts return content identical to the stored
content. -/
theorem complete_session_rejects_submits (s : InterviewSession)
    (calls : List SubmitCall) (h : s.state = .complete) :
    (runCalls s calls).2 = s ∧
    (∀ r ∈ (runCalls s calls).1, r = .error .invalidState) ∧
    readArtifacts (runCalls s calls).2 = readArtifacts s := by
  have hmain : (runCalls s calls).2 = s ∧
      ∀ r ∈ (runCalls s calls).1, r = .error .invalidState := by
    induction calls with
    | nil =>
      refine ⟨rfl, ?_⟩
      intro r hr
      simp [runCalls] at hr
    | cons c rest ih =>
      unfold runCalls
      rw [submitAnswer_of_complete s c.answer c.embedResult c.genResult c.artResults h]
      refine ⟨ih.1, ?_⟩
      intro r hr
      simp only [List.mem_cons] at hr
      rcases hr with rfl | hr
      · rfl
      · exact ih.2 r hr
  exact ⟨hmain.1, hmain.2, by rw [hmain.1]⟩

/-- Concrete instantiation of complete_session_rejects_submits. -/
theorem complete_session_rejects_submits_witness :
    sampleCompleteSession.state = .complete ∧
    ((runCalls sampleCompleteSession
        [⟨"a", Except.ok [], Except.ok "q", fun _ => Except.ok "c"⟩]).2
        = sampleCompleteSession ∧
     (∀ r ∈ (runCalls sampleCompleteSession
        [⟨"a", Except.ok [], Except.ok "q", fun _ => Except.ok "c"⟩]).1,
        r = .error .invalidState) ∧
     readArtifacts (runCalls sampleCompleteSession
        [⟨"a", Except.ok [], Except.ok "q", fun _ => Except.ok "c"⟩]).2
        = readArtifacts sampleCompleteSession) :=
  ⟨rfl, complete_session_rejects_submits _ _ rfl⟩

/-! ### C8 -/

/-- C8: for a session in AWAITING_ANSWER, if the Embedder or Generator call
made during the submit_answer transition fails, the call returns a typed
error and the session state afterwards is exactly the state before the call
(the transition is never partially applied, so the client may retry). -/
theorem submitAnswer_failure_atomic (s : InterviewSession) (a : String)
    (embedResult : Except String (List String)) (genResult : Except String String)
    (artResults : ArtifactKind → Except String String)
    (h : s.state = .awaitingAnswer)
    (hfail : (∃ e, embedResult = .error e) ∨
             (s.turnIndex + 1 < TOTAL_TURNS ∧ ∃ e, genResult = .error e) ∨
             (¬ s.turnIndex + 1 < TOTAL_TURNS ∧
                ∃ e, synthesizeArtifacts s.outputPrefs artResults = .error e)) :
    (submitAnswer s a embedResult genResult artResults).2 = s ∧
    ∃ err, (submitAnswer s a embedResult genResult artResults).1 = .error err := by
  rcases hfail with ⟨e, rfl⟩ | ⟨hlt, e, rfl⟩ | ⟨hge, e, herr⟩
  · refine ⟨?_, ⟨.embedding, ?_⟩⟩ <;> simp [submitAnswer, h]
  · rcases embedResult with e' | ctx
    · refine ⟨?_, ⟨.embedding, ?_⟩⟩ <;> simp [submitAnswer, h]
    · refine ⟨?_, ⟨.generation, ?_⟩⟩ <;> simp [submitAnswer, h, hlt]
  · rcases embedResult with e' | ctx
    · refine ⟨?_, ⟨.embedding, ?_⟩⟩ <;> simp [submitAnswer, h]
    · refine ⟨?_, ⟨.generation, ?_⟩⟩ <;> simp [submitAnswer, h, hge, herr]

/-- Concrete instantiation of submitAnswer_failure_atomic. -/
theorem submitAnswer_failure_atomic_witness :
    sampleFinalSession.state = .awaitingAnswer ∧
    ((submitAnswer sampleFinalSession "a" (.error "boom") (.ok "q")
        (fun _ => .ok "c")).2 = sampleFinalSession ∧
     ∃ err, (submitAnswer sampleFinalSession "a" (.error "boom") (.ok "q")
        (fun _ => .ok "c")).1 = .error err) :=
  ⟨rfl, submitAnswer_failure_atomic _ _ _ _ _ rfl (Or.inl ⟨"boom", rfl⟩)⟩

/-! ### C4 helpers -/

theorem artifact_count_of_filter (ks : List ArtifactKind) (p : ArtifactKind → Bool)
    (g : ArtifactKind → String) (k : ArtifactKind) (hnd : ks.Nodup) :
    (((ks.filter p).map (fun x => Artifact.mk x (g x))).filter
        (fun art => art.kind == k)).length
      = if k ∈ ks ∧ p k = true then 1 else 0 := by
  induction ks with
  | nil => simp
  | cons k0 tl ih =>
    rw [List.nodup_cons] at hnd
    have ihtl := ih hnd.2
    by_cases hp : p k0 = true <;> by_cases hk : k = k0
    · subst hk
      have hnotin : ¬ (k ∈ tl ∧ p k = true) := fun hc => hnd.1 hc.1
      rw [if_neg hnotin] at ihtl
      simp [List.filter_cons, hp, ihtl]
    · have hne : (k0 == k) = false := by
        simp
        exact fun hc => hk hc.symm
      simp [List.filter_cons, hp, hne, ihtl, hk]
    · subst hk
      rw [List.filter_cons, if_neg (by simp [hp])]
      rw [ihtl]
      have hnotin : ¬ (k ∈ tl ∧ p k = true) := fun hc => absurd hc.2 hp
      have hnotin2 : ¬ (k ∈ k :: tl ∧ p k = true) := fun hc => absurd hc.2 hp
      rw [if_neg hnotin, if_neg hnotin2]
    · rw [List.filter_cons, if_neg (by simp [hp])]
      rw [ihtl]
      have hmemiff : (k ∈ k0 :: tl ∧ p k = true) ↔ (k ∈ tl ∧ p k = true) := by
        constructor
        · rintro ⟨hm, hpk⟩
          rcases List.mem_cons.mp hm with rfl | hm2
          · exact absurd rfl hk
          · exact ⟨hm2, hpk⟩
        · rintro ⟨hm, hpk⟩
          exact ⟨List.mem_cons_of_mem _ hm, hpk⟩
      by_cases hmem : k ∈ tl ∧ p k = true
      · rw [if_pos hmem, if_pos (hmemiff.mpr hmem)]
      · rw [if_neg hmem, if_neg (fun hc => hmem (hmemiff.mp hc))]

/-! ### C4 -/

/-- C4: at completion the produced artifacts are exactly the enabled kinds of
output_preferences — one artifact per enabled kind, none for a disabled
kind; with only the design document enabled, exactly one artifact of kind
design document is produced. -/
theorem completion_artifacts_match_preferences (s : InterviewSession) (a : String)
    (ctx : List String) (genResult : Except String String)
    (artResults : ArtifactKind → Except String String) (g : ArtifactKind → String)
    (h1 : s.state = .awaitingAnswer) (h2 : ¬ s.turnIndex + 1 < TOTAL_TURNS)
    (harts : ∀ k, artResults k = .ok (g k)) :
    ∃ resp s', submitAnswer s a (.ok ctx) genResult artResults = (.ok resp, s') ∧
      resp.isComplete = true ∧
      s'.artifacts.map Artifact.kind = allKinds.filter (fun k => s.outputPrefs.enabled k) ∧
      (∀ k : ArtifactKind, (s'.artifacts.filter (fun art => art.kind == k)).length
          = if s.outputPrefs.enabled k = true then 1 else 0) ∧
      (s.outputPrefs = designDocOnly →
        s'.artifacts = [⟨.designDocument, g .designDocument⟩]) := by
  have hsynth : synthesizeArtifacts s.outputPrefs artResults =
      .ok ((enabledKinds s.outputPrefs).map (fun k => ⟨k, g k⟩)) := by
    unfold synthesizeArtifacts
    exact synthGo_ok artResults g harts (enabledKinds s.outputPrefs)
  refine ⟨_, _, submitAnswer_finish s a ctx genResult artResults _ h1 h2 hsynth,
    rfl, ?_, ?_, ?_⟩
  · show ((enabledKinds s.outputPrefs).map (fun k => Artifact.mk k (g k))).map Artifact.kind
      = allKinds.filter (fun k => s.outputPrefs.enabled k)
    rw [List.map_map]
    unfold enabledKinds
    exact List.map_id _
  · intro k
    show (((allKinds.filter (fun x => s.outputPrefs.enabled x)).map
        (fun x => Artifact.mk x (g x))).filter (fun art => art.kind == k)).length
      = if s.outputPrefs.enabled k = true then 1 else 0
    rw [artifact_count_of_filter allKinds (fun x => s.outputPrefs.enabled x) g k (by decide)]
    have hmem : k ∈ allKinds := by cases k <;> decide
    by_cases hen : s.outputPrefs.enabled k = true
    · rw [if_pos ⟨hmem, hen⟩, if_pos hen]
    · rw [if_neg (fun hc => hen hc.2), if_neg hen]
  · intro hpref
    show (enabledKinds s.outputPrefs).map (fun k => Artifact.mk k (g k))
      = [⟨.designDocument, g .designDocument⟩]
    rw [hpref]
    rfl

/-- Concrete instantiation of completion_artifacts_match_preferences. -/
theorem completion_artifacts_witness :
    sampleFinalSession.state = .awaitingAnswer ∧
    ¬ sampleFinalSession.turnIndex + 1 < TOTAL_TURNS ∧
    (∃ resp s', submitAnswer sampleFinalSession "a" (.ok []) (.ok "q")
        (fun _ => .ok "art") = (.ok resp, s') ∧
      resp.isComplete = true ∧
      s'.artifacts.map Artifact.kind
        = allKinds.filter (fun k => sampleFinalSession.outputPrefs.enabled k) ∧
      (∀ k : ArtifactKind, (s'.artifacts.filter (fun art => art.kind == k)).length
          = if sampleFinalSession.outputPrefs.enabled k = true then 1 else 0) ∧
      (sampleFinalSession.outputPrefs = designDocOnly →
        s'.artifacts = [⟨.designDocument, "art"⟩])) :=
  ⟨rfl, by decide,
    completion_artifacts_match_preferences sampleFinalSession "a" [] (.ok "q")
      (fun _ => .ok "art") (fun _ => "art") rfl (by decide) (fun _ => rfl)⟩

/-! ### C1 -/

/-- C1: a successful start_interview returns progress 0, and five subsequent
successful submit_answer calls return progress 20, 40, 60, 80, 100 in that
order (progress = turn_index * 100 / TOTAL_TURNS with TOTAL_TURNS = 5), with
is_complete true on the fifth call and on no earlier one. -/
theorem interview_progress_sequence (sid : List Char)
    (req q0 q1 q2 q3 q4 q5 a1 a2 a3 a4 a5 : String) (prefs : OutputPrefs)
    (ctx : List String) (artResults : ArtifactKind → Except String String)
    (g : ArtifactKind → String) (hreq : req ≠ "")
    (harts : ∀ k, artResults k = .ok (g k)) :
    runInterview sid req prefs ctx q0
        [(a1, q1), (a2, q2), (a3, q3), (a4, q4), (a5, q5)] artResults
      = .ok (0, [(20, false), (40, false), (60, false), (80, false), (100, true)]) := by
  have hsynth : synthesizeArtifacts prefs artResults =
      .ok ((enabledKinds prefs).map (fun k => ⟨k, g k⟩)) := by
    unfold synthesizeArtifacts
    exact synthGo_ok artResults g harts (enabledKinds prefs)
  simp [runInterview, runSubmits, startInterview, submitAnswer, hreq, hsynth, TOTAL_TURNS]

/-- Concrete instantiation of interview_progress_sequence. -/
theorem interview_progress_sequence_witness :
    ("r" : String) ≠ "" ∧
    runInterview "interview_0".toList "r" designDocOnly [] "q0"
        [("b1", "q1"), ("b2", "q2"), ("b3", "q3"), ("b4", "q4"), ("b5", "q5")]
        (fun _ => .ok "art")
      = .ok (0, [(20, false), (40, false), (60, false), (80, false), (100, true)]) :=
  ⟨by decide,
    interview_progress_sequence "interview_0".toList "r" "q0" "q1" "q2" "q3" "q4" "q5"
      "b1" "b2" "b3" "b4" "b5" designDocOnly [] (fun _ => .ok "art") (fun _ => "art")
      (by decide) (fun _ => rfl)⟩
